import Mathlib

set_option maxRecDepth 4000

/-!
Shallow embedding of the rio_notes waveform engine
(src/rionotes/wave_objects.py and src/rionotes/wave_functions.py).

Modelling conventions:
* Python/numpy float64 samples are modelled as exact rationals.  Every
  arithmetic step the claims exercise (linspace, sums, scaling, the
  envelope ramps, the smoothing means) is exact there, and the integer
  truncations such as int(0.05 * n) agree with the exact rational floors
  n / 20 for all realistic lengths, because the products stay many orders
  of magnitude away from the float64 rounding scale.
* The transcendental primitives np.pi and np.sin have no exact rational
  form; they are passed as an explicit parameter (FloatPrims).  No claim
  depends on their values, so every theorem quantifies over them and the
  concrete evaluations use a trivial instance.
* Python exceptions are PyErr values in Except; the numpy 1-d broadcast
  rule for elementwise addition is modelled by npAdd.
* dict caches are association lists, newest entry first.  The reset value
  {0: 0} of reset_cashes stores an int key 0 that no string key of the
  Note/Chord caches can ever collide with, so those two reset to the empty
  list; the Timeline cache keeps its int-keyed sentinel entry.  The int
  scalar 0 that Python stores as a sentinel value is modelled as the empty
  waveform (it plays the same additive-identity role and no claim
  distinguishes the two).
-/

namespace Rio

abbrev Str := List Char
abbrev Wave := List ℚ

/-- Abstract stand-ins for the float primitives np.pi and np.sin. -/
structure FloatPrims where
  pi : ℚ
  sin : ℚ → ℚ

/-- Trivial primitives used for closed evaluations; every theorem holds for
all FloatPrims, so the choice is irrelevant. -/
def trivP : FloatPrims := ⟨0, fun _ => 0⟩

/-- Python exceptions the embedded code can raise. -/
inductive PyErr where
  | typeError
  | zeroDivisionError
  | keyError
  | valueError
deriving DecidableEq

/-- Result of NOTES.get(note, sentinel): either a numeric frequency from
the pitch table or the string sentinel default of wave_objects.py:273. -/
inductive Freq where
  | num (q : ℚ)
  | strv (s : Str)
deriving DecidableEq

/-- First-match association-list lookup: the dict lookups of the caches
and of the pitch table. -/
def lookupA {α β : Type} [DecidableEq α] (k : α) : List (α × β) → Option β
  | [] => none
  | (k1, v) :: rest => if k1 = k then some v else lookupA k rest

/-- np.linspace a b n: n evenly spaced samples from a to b, endpoint
included (num = 1 gives [a], num = 0 gives []). -/
def linspace (a b : ℚ) (n : ℕ) : Wave :=
  if n = 0 then []
  else if n = 1 then [a]
  else (List.range n).map fun i : ℕ => a + (b - a) * (i : ℚ) / ((n - 1 : ℕ) : ℚ)

/-- Python float modulo: the result carries the divisor's sign (floor
based).  Only called with a nonzero divisor in this embedding. -/
def qmod (a b : ℚ) : ℚ := a - b * ⌊a / b⌋

/-- Python int() applied to a float: truncation toward zero. -/
def pyInt (q : ℚ) : ℤ := if 0 ≤ q then ⌊q⌋ else -⌊-q⌋

/-- np.max(np.absolute(wave)) for the nonempty waves the engine builds;
the 0 seed is absorbed because every absolute value is nonnegative. -/
def maxAbs (w : Wave) : ℚ := (w.map (fun x => |x|)).foldr max 0

/-- normalize_wave of wave_functions.py: scale so the peak equals
VOLUME_CORRECTION = 0.99, returning an all-zero wave unchanged.  (numpy
raises on np.max of an empty array; the engine never normalizes an empty
wave under the configurations the claims reach, and the empty case is
modelled as the identity.) -/
def normalize_wave (w : Wave) : Wave :=
  if maxAbs w = 0 then w else w.map fun x => x / maxAbs w * (99 / 100)

/-- Elementwise + of two 1-d numpy arrays: equal lengths add pointwise, a
length-one operand broadcasts, anything else raises ValueError. -/
def npAdd (a b : Wave) : Except PyErr Wave :=
  if a.length = b.length then .ok (List.zipWith (· + ·) a b)
  else if a.length = 1 then .ok (b.map fun y => a.headD 0 + y)
  else if b.length = 1 then .ok (a.map fun x => x + b.headD 0)
  else .error .valueError

/-- Arithmetic between a float and a Python str raises TypeError. -/
def asNum : Freq → Except PyErr ℚ
  | .num q => .ok q
  | .strv _ => .error .typeError

/-- generate_wave_sine: sin(2 pi f t) pointwise. -/
def generate_wave_sine (P : FloatPrims) (timeline : Wave) (frequency : Freq) :
    Except PyErr Wave :=
  match asNum frequency with
  | .error e => .error e
  | .ok f => .ok (timeline.map fun t => P.sin (2 * P.pi * f * t))

/-- generate_wave_square: timeline // (0.5 / f) % 2 * 2 - 1. -/
def generate_wave_square (timeline : Wave) (frequency : Freq) :
    Except PyErr Wave :=
  match asNum frequency with
  | .error e => .error e
  | .ok f =>
    if f = 0 then .error .zeroDivisionError
    else .ok (timeline.map fun t => qmod ((⌊t / (1 / 2 / f)⌋ : ℤ) : ℚ) 2 * 2 - 1)

/-- generate_wave_triangular: the double absolute-value fold of
t % (1 / f) * f - 1. -/
def generate_wave_triangular (timeline : Wave) (frequency : Freq) :
    Except PyErr Wave :=
  match asNum frequency with
  | .error e => .error e
  | .ok f =>
    if f = 0 then .error .zeroDivisionError
    else .ok (timeline.map fun t =>
      abs (abs (qmod t (1 / f) * f - 1) * 2 - 1) * 2 - 1)

/-- generate_wave_saw: t % (1 / f) * f * 2 - 1. -/
def generate_wave_saw (timeline : Wave) (frequency : Freq) :
    Except PyErr Wave :=
  match asNum frequency with
  | .error e => .error e
  | .ok f =>
    if f = 0 then .error .zeroDivisionError
    else .ok (timeline.map fun t => qmod t (1 / f) * f * 2 - 1)

/-- generate_wave_backsaw: (-t) % (1 / f) * f * 2 - 1. -/
def generate_wave_backsaw (timeline : Wave) (frequency : Freq) :
    Except PyErr Wave :=
  match asNum frequency with
  | .error e => .error e
  | .ok f =>
    if f = 0 then .error .zeroDivisionError
    else .ok (timeline.map fun t => qmod (-t) (1 / f) * f * 2 - 1)

/-- The wave-kind dispatch table of wave_functions.py; none models the
dict KeyError on an unknown tag. -/
def WAVE_FUNCTIONS (P : FloatPrims) (tag : Str) :
    Option (Wave → Freq → Except PyErr Wave) :=
  if tag = ['s'] then some (generate_wave_sine P)
  else if tag = ['s', 'q'] then some generate_wave_square
  else if tag = ['t'] then some generate_wave_triangular
  else if tag = ['s', 'w'] then some generate_wave_saw
  else if tag = ['b', 's'] then some generate_wave_backsaw
  else none

/-- apply_linearity of wave_functions.py: multiply pointwise with
np.linspace(start_ratio, end_ratio, num = len(array)). -/
def apply_linearity (arr : Wave) (start_ratio end_ratio : ℚ) : Wave :=
  List.zipWith (· * ·) arr (linspace start_ratio end_ratio arr.length)

/-- ADSR_ENABLED of wave_objects.py. -/
def ADSR_ENABLED : Bool := true

/-- Chord.apply_adsr: split at int(0.05 n), int(0.3 n), int(0.9 n) — the
exact floors n / 20, 3 n / 10, 9 n / 10 — ramp the four segments with
apply_linearity between levels 0, 1.0, 1.0, 0.7, 0 and concatenate. -/
def applyAdsr (w : Wave) : Wave :=
  apply_linearity (w.take (w.length / 20)) 0 1 ++
    (apply_linearity ((w.drop (w.length / 20)).take
      (3 * w.length / 10 - w.length / 20)) 1 1 ++
    (apply_linearity ((w.drop (3 * w.length / 10)).take
      (9 * w.length / 10 - 3 * w.length / 10)) 1 (7 / 10) ++
    apply_linearity (w.drop (9 * w.length / 10)) (7 / 10) 0))

/-- Modelled from the spec: the envelope as section 4.3 words it, with the
split indices rounded — round(0.05 n), round(0.3 n), round(0.9 n) — rather
than truncated.  Compared against applyAdsr, which is the source. -/
def adsrSpec (w : Wave) : Wave :=
  apply_linearity (w.take (round ((w.length : ℚ) / 20)).toNat) 0 1 ++
    (apply_linearity ((w.drop (round ((w.length : ℚ) / 20)).toNat).take
      ((round (3 * (w.length : ℚ) / 10)).toNat -
        (round ((w.length : ℚ) / 20)).toNat)) 1 1 ++
    (apply_linearity ((w.drop (round (3 * (w.length : ℚ) / 10)).toNat).take
      ((round (9 * (w.length : ℚ) / 10)).toNat -
        (round (3 * (w.length : ℚ) / 10)).toNat)) 1 (7 / 10) ++
    apply_linearity (w.drop (round (9 * (w.length : ℚ) / 10)).toNat) (7 / 10) 0))

/-- The sample value of np.linspace a b n at index i (i < n). -/
def linAt (a b : ℚ) (n i : ℕ) : ℚ :=
  if n ≤ 1 then a else a + (b - a) * i / (n - 1)

/-- The pointwise envelope multiplier applyAdsr applies at index i of a
wave of length n. -/
def adsrMultAt (n i : ℕ) : ℚ :=
  if i < n / 20 then linAt 0 1 (n / 20) i
  else if i < 3 * n / 10 then linAt 1 1 (3 * n / 10 - n / 20) (i - n / 20)
  else if i < 9 * n / 10 then
    linAt 1 (7 / 10) (9 * n / 10 - 3 * n / 10) (i - 3 * n / 10)
  else linAt (7 / 10) 0 (n - 9 * n / 10) (i - 9 * n / 10)

/-- Changeable options of the Config class. -/
structure Config where
  bpm : ℤ
  note_length : ℤ
  note_duration : ℚ
  wave_type : Str
deriving DecidableEq

/-- The three class-level wave_cash dicts (Timeline keyed by the int
repeat count, Note and Chord keyed by strings). -/
structure Caches where
  timeline : List (ℕ × Wave)
  note : List (Str × Wave)
  chord : List (Str × Wave)
deriving DecidableEq

/-- Process-wide state: the Config class attributes plus the caches. -/
structure State where
  cfg : Config
  caches : Caches
deriving DecidableEq

/-- reset_cashes: every cache becomes {0: 0}.  The int key is unreachable
from the string-keyed Note/Chord lookups; the Timeline cache keeps it. -/
def resetCaches : Caches := ⟨[(0, [])], [], []⟩

/-- The class-attribute defaults of Config (bpm 144, note_length 18375,
note_duration 18375 / 44100, triangular wave). -/
def defaultConfig : Config := ⟨144, 18375, 18375 / 44100, ['t']⟩

/-- The initial class-level caches, each {'': 0}.  The Timeline cache's
string key can never equal an int repeat count, so it starts empty. -/
def initialCaches : Caches := ⟨[], [(([] : Str), ([] : Wave))], [(([] : Str), ([] : Wave))]⟩

/-- The process state at import time. -/
def defaultState : State := ⟨defaultConfig, initialCaches⟩

/-- Config.set_bpm: the bpm attribute is written first; with bpm = 0 the
derived note length computation SAMPLING_RATE * 60 / bpm raises
ZeroDivisionError, leaving every other attribute and all caches as they
were.  A nonzero bpm (negative included) recomputes note_length =
int(2646000 / bpm), note_duration = note_length / 44100 and clears the
caches. -/
def setBpm (st : State) (v : ℤ) : Option PyErr × State :=
  if v = 0 then
    (some .zeroDivisionError,
      ⟨⟨v, st.cfg.note_length, st.cfg.note_duration, st.cfg.wave_type⟩, st.caches⟩)
  else
    let nl := pyInt (2646000 / (v : ℚ))
    (none, ⟨⟨v, nl, (nl : ℚ) / 44100, st.cfg.wave_type⟩, resetCaches⟩)

/-- Config.set_wave: store the tag unchecked and reset the caches. -/
def setWave (st : State) (tag : Str) : Option PyErr × State :=
  (none, ⟨⟨st.cfg.bpm, st.cfg.note_length, st.cfg.note_duration, tag⟩, resetCaches⟩)

/-- Modelled from the spec: the PitchTable (rionotes/notes.py is not under
src/).  Spec section 3 describes a static map from note-name strings to
frequencies in Hz with a silence sentinel at key "0", and section 8 fixes
a4 = 440 Hz.  Only entries the claims exercise are listed; the theorems
about unmatched names only use absence from the table. -/
def NOTES : List (Str × ℚ) := [((['0'] : Str), 0), ((['a', '4'] : Str), 440)]

/-- NOTES.get(note, sentinel) of wave_objects.py:273: the default is the
string sentinel, not the number 0. -/
def notesGet (note : Str) : Freq :=
  match lookupA note NOTES with
  | some f => .num f
  | none => .strv ['0']

/-- The Python test frequency == 0: a numeric 0 passes, the string
sentinel does not. -/
def freqIsZero : Freq → Bool
  | .num q => q = 0
  | .strv _ => false

/-- Timeline.__init__: cached by repeat count, else np.linspace(0,
note_duration * times, num = note_length * times); a negative sample
count is a numpy ValueError. -/
def timelineGet (cfg : Config) (s : Caches) (times : ℕ) :
    Except PyErr (Wave × Caches) :=
  match lookupA times s.timeline with
  | some w => .ok (w, s)
  | none =>
    let duration := cfg.note_duration * times
    let length := cfg.note_length * (times : ℤ)
    if length < 0 then .error .valueError
    else
      let w := linspace 0 duration length.toNat
      .ok (w, ⟨(times, w) :: s.timeline, s.note, s.chord⟩)

/-- Decimal digits of a repeat count, for the Note cache label. -/
def natToStr (n : ℕ) : Str := (Nat.repr n).toList

/-- Note.__init__: cache label "note-times"; on a miss fetch the Timeline,
look the pitch up, short-circuit a numeric 0 frequency to an uncached
all-zero wave, otherwise dispatch on the configured wave kind and cache.
The third component counts wave-function invocations. -/
def noteInit (P : FloatPrims) (cfg : Config) (s : Caches) (note : Str)
    (times : ℕ) : Except PyErr (Wave × Caches × ℕ) :=
  let label := note ++ '-' :: natToStr times
  match lookupA label s.note with
  | some w => .ok (w, s, 0)
  | none =>
    match timelineGet cfg s times with
    | .error e => .error e
    | .ok (tl, s1) =>
      let frequency := notesGet note
      if freqIsZero frequency then .ok (List.replicate tl.length 0, s1, 0)
      else
        match WAVE_FUNCTIONS P cfg.wave_type with
        | none => .error .keyError
        | some gen =>
          match gen tl frequency with
          | .error e => .error e
          | .ok w => .ok (w, ⟨s1.timeline, (label, w) :: s1.note, s1.chord⟩, 1)

/-- Resolve each pitch of a chord left to right, threading the caches and
summing the wave-function invocation counts. -/
def resolveNotes (P : FloatPrims) (cfg : Config) :
    Caches → List Str → ℕ → Except PyErr (List Wave × Caches × ℕ)
  | s, [], _ => .ok ([], s, 0)
  | s, n :: rest, times =>
    match noteInit P cfg s n times with
    | .error e => .error e
    | .ok (w, s1, k1) =>
      match resolveNotes P cfg s1 rest times with
      | .error e => .error e
      | .ok (ws, s2, k2) => .ok (w :: ws, s2, k1 + k2)

/-- Python sum(notes): a left fold of elementwise addition.  The scratch
Note('0', times) objects Note.__add__ allocates resolve the in-table
silence pitch: they perform no wave-function call and no Note-cache store,
and their only possible cache effect (re-inserting a Timeline entry that
the preceding resolution already inserted) is unobservable, so the fold is
modelled as pure.  sum of an empty list would hand the int 0 to the
envelope code, a TypeError. -/
def sumWaves : List Wave → Except PyErr Wave
  | [] => .error .typeError
  | w :: rest => rest.foldlM npAdd w

/-- Python str.split(sep) for a one-character separator: at least one
part, empty parts preserved. -/
def splitOnChar (sep : Char) : Str → List Str
  | [] => [[]]
  | c :: rest =>
    let r := splitOnChar sep rest
    if c = sep then [] :: r
    else (c :: r.headD []) :: r.tail

/-- The miss path of Chord.__init__ after parsing: resolve the pitches of
the label with the shared repeat count, sum, envelope (ADSR_ENABLED),
normalize, and store under the original full chord text. -/
def chordSynth (P : FloatPrims) (cfg : Config) (s : Caches) (text label : Str)
    (times : ℕ) : Except PyErr (Wave × Caches × ℕ) :=
  match resolveNotes P cfg s (splitOnChar '*' label) times with
  | .error e => .error e
  | .ok (waves, s1, k) =>
    match sumWaves waves with
    | .error e => .error e
    | .ok wsum =>
      let shaped := if ADSR_ENABLED then applyAdsr wsum else wsum
      let stored := normalize_wave shaped
      .ok (stored, ⟨s1.timeline, s1.note, (text, stored) :: s1.chord⟩, k)

/-- Chord.__init__: label, *tail = text.split('-'); a cache hit on the
full text returns the stored wave, otherwise synthesize with repeat count
len(tail) + 1. -/
def chordInit (P : FloatPrims) (cfg : Config) (s : Caches) (text : Str) :
    Except PyErr (Wave × Caches × ℕ) :=
  match lookupA text s.chord with
  | some w => .ok (w, s, 0)
  | none =>
    chordSynth P cfg s text ((splitOnChar '-' text).headD [])
      ((splitOnChar '-' text).tail.length + 1)

/-- Build the chords of a track text left to right (the list comprehension
of Track.__init__). -/
def chordList (P : FloatPrims) (cfg : Config) :
    Caches → List Str → Except PyErr (List Wave × Caches)
  | s, [] => .ok ([], s)
  | s, t :: rest =>
    match chordInit P cfg s t with
    | .error e => .error e
    | .ok (w, s1, _) =>
      match chordList P cfg s1 rest with
      | .error e => .error e
      | .ok (ws, s2) => .ok (w :: ws, s2)

/-- Python sum(chords): each Chord.__add__ first constructs a scratch
Chord('0') — a real cache-affecting construction — and then concatenates
the sample arrays. -/
def sumChordWaves (P : FloatPrims) (cfg : Config) :
    Caches → Wave → List Wave → Except PyErr (Wave × Caches)
  | s, acc, [] => .ok (acc, s)
  | s, acc, w :: rest =>
    match chordInit P cfg s ['0'] with
    | .error e => .error e
    | .ok (_, s1, _) => sumChordWaves P cfg s1 (acc ++ w) rest

/-- Python str.strip(): drop ASCII whitespace from both ends. -/
def stripStr (s : Str) : Str :=
  let ws : Char → Bool := fun c => c = ' ' ∨ c = '\n' ∨ c = '\t' ∨ c = '\r'
  ((s.dropWhile ws).reverse.dropWhile ws).reverse

/-- Track.__init__: strip, turn newlines into '+', split on '+', build the
chords, concatenate them (Python sum with Chord.__add__) and normalize. -/
def trackInit (P : FloatPrims) (cfg : Config) (s : Caches) (text : Str) :
    Except PyErr (Wave × Caches) :=
  let t := (stripStr text).map fun c => if c = '\n' then '+' else c
  match chordList P cfg s (splitOnChar '+' t) with
  | .error e => .error e
  | .ok ([], _) => .error .typeError
  | .ok (w :: ws, s1) =>
    match sumChordWaves P cfg s1 w ws with
    | .error e => .error e
    | .ok (wsum, s2) => .ok (normalize_wave wsum, s2)

/-- Track.__mul__ (mixing): a scratch Track('0') is constructed, then the
two sample arrays are added elementwise (numpy broadcast rules) and the
sum is normalized. -/
def trackMul (P : FloatPrims) (cfg : Config) (s : Caches) (self other : Wave) :
    Except PyErr (Wave × Caches) :=
  match trackInit P cfg s ['0'] with
  | .error e => .error e
  | .ok (_, s1) =>
    match npAdd self other with
    | .error e => .error e
    | .ok wsum => .ok (normalize_wave wsum, s1)

/-- One write of the smoothing loop body: tmp_wave[index] =
np.mean(self.wave[index - wing : index + wing]).  Inside the loop the
slice always holds exactly 2 * wing samples, np.mean's divisor. -/
def smoothStep (wing : ℕ) (buf : Wave) (index : ℕ) : Wave :=
  buf.set index (((buf.drop (index - wing)).take (2 * wing)).sum / (2 * wing))

/-- The inner for loop of Track.smooth over the given index list.
tmp_wave = self.wave[:] is a numpy view, so every write lands in the one
shared buffer that later iterations read. -/
def smoothLoop (wing : ℕ) : Wave → List ℕ → Wave
  | buf, [] => buf
  | buf, i :: rest => smoothLoop wing (smoothStep wing buf i) rest

/-- One pass of Track.smooth: the loop runs over range(wing, len - wing)
mutating the single shared buffer in place. -/
def smoothPass (wing : ℕ) (w : Wave) : Wave :=
  smoothLoop wing w (List.range' wing (w.length - 2 * wing))

/-- Track.smooth: the in-place pass applied times times, then
normalize_wave. -/
def smooth (w : Wave) (times wing : ℕ) : Wave :=
  normalize_wave ((smoothPass wing)^[times] w)

/-- Modelled from the spec: one smoothing pass as sections 4.6 and 9 word
it — every window is read from the previous pass's buffer and written to a
fresh one.  Compared against smoothPass, which is the source. -/
def smoothPassFresh (wing : ℕ) (w : Wave) : Wave :=
  (List.range w.length).map fun i =>
    if wing ≤ i ∧ i + wing < w.length
    then ((w.drop (i - wing)).take (2 * wing)).sum / (2 * wing)
    else w.getD i 0

/-- Modelled from the spec: smoothing with fresh per-pass buffers, then
normalization. -/
def smoothFresh (w : Wave) (times wing : ℕ) : Wave :=
  normalize_wave ((smoothPassFresh wing)^[times] w)

deriving instance DecidableEq for Except

/-- A reachable Config with note_length 1 (set_bpm 2646000). -/
def cfgTiny : Config := ((setBpm defaultState 2646000).2).cfg

/-- A reachable Config with note_length 2 (set_bpm 1323000). -/
def cfgLen2 : Config := ((setBpm defaultState 1323000).2).cfg

/-- A reachable Config with note_length 20 (set_bpm 132300). -/
def cfgLen20 : Config := ((setBpm defaultState 132300).2).cfg

/-- A concrete process state whose Chord cache is nonempty, to observe
cache invalidation. -/
def stWithChord : State := ⟨defaultConfig, ⟨[], [], [((['0'] : Str), ([0] : Wave))]⟩⟩

/-! ### Helper lemmas about maxAbs and normalize_wave -/

theorem maxAbs_nonneg (w : Wave) : 0 ≤ maxAbs w := by
  induction w with
  | nil => exact le_refl 0
  | cons x xs ih => exact le_max_of_le_right ih

theorem le_maxAbs {w : Wave} {x : ℚ} (hx : x ∈ w) : |x| ≤ maxAbs w := by
  induction w with
  | nil => cases hx
  | cons y ys ih =>
    rcases List.mem_cons.mp hx with h | h
    · subst h; exact le_max_left _ _
    · exact le_max_of_le_right (ih h)

theorem maxAbs_eq_zero_iff (w : Wave) : maxAbs w = 0 ↔ ∀ x ∈ w, x = 0 := by
  constructor
  · intro h x hx
    have h1 : |x| ≤ 0 := h ▸ le_maxAbs hx
    exact abs_eq_zero.mp (le_antisymm h1 (abs_nonneg x))
  · intro h
    induction w with
    | nil => rfl
    | cons y ys ih =>
      have hy : y = 0 := h y (List.mem_cons_self y ys)
      have hys : maxAbs ys = 0 := ih fun x hx => h x (List.mem_cons_of_mem y hx)
      show max |y| (maxAbs ys) = 0
      rw [hy, hys, abs_zero, max_self]

theorem maxAbs_map_mul (w : Wave) (c : ℚ) (hc : 0 ≤ c) :
    maxAbs (w.map fun x => x * c) = maxAbs w * c := by
  induction w with
  | nil => show (0 : ℚ) = 0 * c; rw [zero_mul]
  | cons y ys ih =>
    show max |y * c| (maxAbs (ys.map fun x => x * c)) = max |y| (maxAbs ys) * c
    rw [ih, abs_mul, abs_of_nonneg hc, max_mul_of_nonneg _ _ hc]

theorem length_normalize (w : Wave) : (normalize_wave w).length = w.length := by
  unfold normalize_wave
  split
  · rfl
  · exact List.length_map _ _

theorem normalize_getElem?_zero {w : Wave} {i : ℕ} (h : w[i]? = some 0) :
    (normalize_wave w)[i]? = some 0 := by
  unfold normalize_wave
  split
  · exact h
  · rw [List.getElem?_map, h]
    show some (0 / maxAbs w * (99 / 100)) = some 0
    rw [zero_div, zero_mul]

/-! ### C6 -/

/-- C6: normalize_wave scales every nonempty, not-all-zero waveform so
that its maximum absolute value equals 0.99 exactly, and returns an
all-zero waveform unchanged (never dividing by zero). -/
theorem c6_normalize (w : Wave) (hw : w ≠ []) :
    ((¬ ∀ x ∈ w, x = 0) → maxAbs (normalize_wave w) = 99 / 100) ∧
    ((∀ x ∈ w, x = 0) → normalize_wave w = w) := by
  constructor
  · intro hnz
    have hd : maxAbs w ≠ 0 := fun h => hnz ((maxAbs_eq_zero_iff w).mp h)
    have hdpos : 0 < maxAbs w := lt_of_le_of_ne (maxAbs_nonneg w) (Ne.symm hd)
    unfold normalize_wave
    rw [if_neg hd]
    have hfe : (fun x => x / maxAbs w * (99 / 100)) =
        fun x : ℚ => x * (99 / 100 / maxAbs w) := by
      funext x; ring
    rw [hfe, maxAbs_map_mul w _ (by positivity)]
    field_simp
    ring
  · intro hz
    unfold normalize_wave
    rw [if_pos ((maxAbs_eq_zero_iff w).mpr hz)]

/-- Witness for C6 at the concrete waveform [1/2]. -/
theorem c6_normalize_witness :
    (([(1 : ℚ) / 2] : Wave) ≠ [] ∧ ¬ ∀ x ∈ ([(1 : ℚ) / 2] : Wave), x = 0) ∧
    maxAbs (normalize_wave [(1 : ℚ) / 2]) = 99 / 100 :=
  ⟨⟨by with_unfolding_all decide, by with_unfolding_all decide⟩, (c6_normalize [(1 : ℚ) / 2] (by with_unfolding_all decide)).1 (by with_unfolding_all decide)⟩

/-! ### C1 -/

/-- C1 (code bug): for the pitch name "zz", which is absent from the
pitch table, Note resolution raises TypeError under every recognized wave
kind instead of yielding silence: NOTES.get(note, sentinel) returns the
string sentinel, the frequency == 0 test fails on it, and the selected
wave function is applied to a string frequency. -/
theorem c1_unknown_pitch_raises :
    lookupA (['z', 'z'] : Str) NOTES = none ∧
    noteInit trivP cfgTiny initialCaches ['z', 'z'] 1 = .error .typeError ∧
    noteInit trivP { cfgTiny with wave_type := ['s'] } initialCaches
      ['z', 'z'] 1 = .error .typeError ∧
    noteInit trivP { cfgTiny with wave_type := ['s', 'q'] } initialCaches
      ['z', 'z'] 1 = .error .typeError ∧
    noteInit trivP { cfgTiny with wave_type := ['s', 'w'] } initialCaches
      ['z', 'z'] 1 = .error .typeError ∧
    noteInit trivP { cfgTiny with wave_type := ['b', 's'] } initialCaches
      ['z', 'z'] 1 = .error .typeError := by
  with_unfolding_all decide

/-! ### C2 -/

/-- C2 counterexample: set_wave with the unrecognized tag "xyz" is not
rejected — it succeeds, installs the bad tag and clears the caches — and
set_bpm 0 mutates the bpm attribute before raising, so the prior bpm is
not left intact. -/
theorem c2_counterexample :
    (setWave stWithChord ['x', 'y', 'z']).1 = none ∧
    ((setWave stWithChord ['x', 'y', 'z']).2).cfg.wave_type = ['x', 'y', 'z'] ∧
    ((setWave stWithChord ['x', 'y', 'z']).2).caches ≠ stWithChord.caches ∧
    (setBpm stWithChord 0).1 = some .zeroDivisionError ∧
    ((setBpm stWithChord 0).2).cfg.bpm = 0 ∧
    stWithChord.cfg.bpm = 144 := by
  with_unfolding_all decide

/-- C2 amended: neither Config mutator validates its argument.  set_bpm
always writes the new bpm first; for bpm = 0 it then raises
ZeroDivisionError, leaving the derived fields, the wave kind and all
three caches exactly as they were (the bpm write is the only change); for
any nonzero bpm — negative included — it completes, recomputing
note_length and note_duration and clearing all caches.  set_wave accepts
every tag, installs it and clears all caches; an unrecognized kind only
fails later at synthesis. -/
theorem c2_amended (st : State) (v : ℤ) (tag : Str) :
    (v = 0 → setBpm st v =
      (some .zeroDivisionError,
        ⟨⟨0, st.cfg.note_length, st.cfg.note_duration, st.cfg.wave_type⟩,
          st.caches⟩)) ∧
    (v ≠ 0 → setBpm st v =
      (none, ⟨⟨v, pyInt (2646000 / (v : ℚ)),
        (pyInt (2646000 / (v : ℚ)) : ℚ) / 44100, st.cfg.wave_type⟩,
        resetCaches⟩)) ∧
    setWave st tag =
      (none, ⟨⟨st.cfg.bpm, st.cfg.note_length, st.cfg.note_duration, tag⟩,
        resetCaches⟩) := by
  refine ⟨fun h => ?_, fun h => ?_, rfl⟩
  · subst h; simp [setBpm]
  · simp [setBpm, h]

/-! ### Helper lemmas about linspace -/

theorem length_linspace (a b : ℚ) (n : ℕ) : (linspace a b n).length = n := by
  rw [linspace]
  split
  · simp_all
  split
  · simp_all
  rw [List.length_map, List.length_range]

theorem linspace_getElem? (a b : ℚ) {n i : ℕ} (h : i < n) :
    (linspace a b n)[i]? = some (linAt a b n i) := by
  rw [linspace]
  split
  · omega
  split
  · have hn1 : n = 1 := by assumption
    have hi0 : i = 0 := by omega
    subst hn1
    subst hi0
    rw [linAt, if_pos (le_refl 1)]
    rfl
  · have hn : ¬ n ≤ 1 := by omega
    rw [List.getElem?_map, List.getElem?_eq_getElem (by simpa using h),
      List.getElem_range, linAt, if_neg hn]
    have h1 : 1 ≤ n := by omega
    have hc : ((n - 1 : ℕ) : ℚ) = (n : ℚ) - 1 := by
      rw [Nat.cast_sub h1, Nat.cast_one]
    simp [hc]

/-! ### C4 -/

/-- C4 counterexample: under the reachable Config with note_length 2
(set_bpm 1323000), the Timeline for repeat count 1 is [0, 1/22050] while
duration = note_duration * 1 = 1/22050, so the last sample equals the
duration: the samples do not all lie in the half-open span [0, duration)
that the claim states. -/
theorem c4_counterexample :
    timelineGet cfgLen2 initialCaches 1 =
      .ok (([0, 1 / 22050] : Wave),
        ⟨[(1, ([0, 1 / 22050] : Wave))], [(([] : Str), ([] : Wave))],
          [(([] : Str), ([] : Wave))]⟩) ∧
    cfgLen2.note_duration * 1 = 1 / 22050 ∧
    ¬ ∀ x ∈ ([0, 1 / 22050] : Wave), x < 1 / 22050 := by
  refine ⟨by with_unfolding_all rfl, by with_unfolding_all rfl, fun h => ?_⟩
  exact absurd (h (1 / 22050) (by simp)) (lt_irrefl _)

/-- C4 amended: for every coherent Config with note_length at least 2 and
every repeat count t from 1, the freshly computed Timeline has exactly
note_length * t samples, starts at 0, is strictly increasing with even
spacing duration / (length - 1) for duration = note_duration * t, every
sample lies in the closed interval [0, duration], and the last sample
equals duration (the span is [0, duration] inclusive, not
[0, duration)). -/
theorem c4_amended (cfg : Config) (t : ℕ) (s : Caches) (w : Wave)
    (s1 : Caches) (i : ℕ) (ht : 1 ≤ t) (hnl : 2 ≤ cfg.note_length)
    (hcoh : cfg.note_duration = (cfg.note_length : ℚ) / 44100)
    (hmiss : lookupA t s.timeline = none)
    (hok : timelineGet cfg s t = .ok (w, s1)) (hi : i + 1 < w.length) :
    w.length = (cfg.note_length * (t : ℤ)).toNat ∧
    w[0]? = some 0 ∧
    w.getLast? = some (cfg.note_duration * t) ∧
    w.getD (i + 1) 0 - w.getD i 0 =
      cfg.note_duration * t / ((w.length : ℚ) - 1) ∧
    w.getD i 0 < w.getD (i + 1) 0 ∧
    0 ≤ w.getD i 0 ∧ w.getD i 0 ≤ cfg.note_duration * t := by
  have hlen : ¬ cfg.note_length * (t : ℤ) < 0 := by
    have ht' : (1 : ℤ) ≤ (t : ℤ) := by exact_mod_cast ht
    nlinarith
  rw [timelineGet, hmiss, if_neg hlen] at hok
  have hw : w = linspace 0 (cfg.note_duration * t)
      (cfg.note_length * (t : ℤ)).toNat := (Prod.mk.injEq _ _ _ _ ▸ Except.ok.injEq _ _ ▸ hok).1.symm
  set L := (cfg.note_length * (t : ℤ)).toNat with hL
  have hL2 : 2 ≤ L := by
    have ht' : (1 : ℤ) ≤ (t : ℤ) := by exact_mod_cast ht
    have h2 : (2 : ℤ) ≤ cfg.note_length * (t : ℤ) := by nlinarith
    omega
  have hwlen : w.length = L := by rw [hw, length_linspace]
  set d := cfg.note_duration * t with hd
  have hdpos : 0 < d := by
    rw [hd, hcoh]
    have h1 : (0 : ℚ) < (cfg.note_length : ℚ) := by
      have : (0 : ℤ) < cfg.note_length := by omega
      exact_mod_cast this
    have h2 : (0 : ℚ) < (t : ℚ) := by exact_mod_cast ht
    positivity
  have hcast : ((L - 1 : ℕ) : ℚ) = (L : ℚ) - 1 := by
    have : 1 ≤ L := by omega
    push_cast [this]
    ring
  have hLne : ((L : ℚ) - 1) ≠ 0 := by
    have : (2 : ℚ) ≤ (L : ℚ) := by exact_mod_cast hL2
    intro hcon
    nlinarith
  have hget : ∀ j, j < L → w[j]? = some (d * j / ((L : ℚ) - 1)) := by
    intro j hj
    rw [hw, linspace_getElem? 0 d hj, linAt, if_neg (by omega)]
    refine congrArg some ?_
    ring
  have hgetD : ∀ j, j < L → w.getD j 0 = d * j / ((L : ℚ) - 1) := by
    intro j hj
    rw [List.getD_eq_getElem?_getD, hget j hj]
    rfl
  have hiL : i + 1 < L := hwlen ▸ hi
  refine ⟨hwlen, ?_, ?_, ?_, ?_, ?_, ?_⟩
  · rw [hget 0 (by omega)]
    norm_num
  · rw [List.getLast?_eq_getElem?, hwlen, hget (L - 1) (by omega)]
    have hc2 : ((L - 1 : ℕ) : ℚ) = (L : ℚ) - 1 := hcast
    rw [hc2, mul_div_assoc, div_self hLne, mul_one]
  · rw [hgetD (i + 1) hiL, hgetD i (by omega), hwlen]
    push_cast
    field_simp
    ring
  · have hstep : w.getD (i + 1) 0 - w.getD i 0 = d / ((L : ℚ) - 1) := by
      rw [hgetD (i + 1) hiL, hgetD i (by omega)]
      push_cast
      field_simp
      ring
    have hpos : 0 < d / ((L : ℚ) - 1) := by
      apply div_pos hdpos
      have : (2 : ℚ) ≤ (L : ℚ) := by exact_mod_cast hL2
      linarith
    linarith [hstep, hpos]
  · rw [hgetD i (by omega)]
    have h0 : (0 : ℚ) ≤ (i : ℚ) := by positivity
    have hden : (0 : ℚ) < (L : ℚ) - 1 := by
      have : (2 : ℚ) ≤ (L : ℚ) := by exact_mod_cast hL2
      linarith
    positivity
  · rw [hgetD i (by omega)]
    have hden : (0 : ℚ) < (L : ℚ) - 1 := by
      have : (2 : ℚ) ≤ (L : ℚ) := by exact_mod_cast hL2
      linarith
    rw [div_le_iff₀ hden]
    have hle : (i : ℚ) ≤ (L : ℚ) - 1 := by
      have : (i : ℚ) + 1 + 1 ≤ (L : ℚ) := by exact_mod_cast hiL
      linarith
    nlinarith [hdpos.le, hle]

/-- Witness for C4 amended at the reachable note_length-2 Config, repeat
count 1 and index 0. -/
theorem c4_amended_witness :
    (lookupA 1 initialCaches.timeline = none ∧
      timelineGet cfgLen2 initialCaches 1 =
        .ok (([0, 1 / 22050] : Wave),
          ⟨[(1, ([0, 1 / 22050] : Wave))], [(([] : Str), ([] : Wave))],
            [(([] : Str), ([] : Wave))]⟩) ∧
      1 ≤ 1 ∧ 2 ≤ cfgLen2.note_length ∧
      cfgLen2.note_duration = (cfgLen2.note_length : ℚ) / 44100 ∧
      0 + 1 < ([0, 1 / 22050] : Wave).length) ∧
    (([0, 1 / 22050] : Wave).length = (cfgLen2.note_length * (1 : ℤ)).toNat ∧
      ([0, 1 / 22050] : Wave)[0]? = some 0 ∧
      ([0, 1 / 22050] : Wave).getLast? = some (cfgLen2.note_duration * 1) ∧
      ([0, 1 / 22050] : Wave).getD (0 + 1) 0 - ([0, 1 / 22050] : Wave).getD 0 0 =
        cfgLen2.note_duration * 1 / ((([0, 1 / 22050] : Wave).length : ℚ) - 1) ∧
      ([0, 1 / 22050] : Wave).getD 0 0 < ([0, 1 / 22050] : Wave).getD (0 + 1) 0 ∧
      0 ≤ ([0, 1 / 22050] : Wave).getD 0 0 ∧
      ([0, 1 / 22050] : Wave).getD 0 0 ≤ cfgLen2.note_duration * 1) :=
  ⟨⟨rfl, by with_unfolding_all rfl, le_refl 1,
      of_decide_eq_true (by with_unfolding_all rfl),
      by with_unfolding_all rfl, of_decide_eq_true (by with_unfolding_all rfl)⟩,
    c4_amended cfgLen2 1 initialCaches [0, 1 / 22050]
      ⟨[(1, ([0, 1 / 22050] : Wave))], [(([] : Str), ([] : Wave))],
        [(([] : Str), ([] : Wave))]⟩ 0
      (le_refl 1) (of_decide_eq_true (by with_unfolding_all rfl))
      (by with_unfolding_all rfl) rfl (by with_unfolding_all rfl)
      (of_decide_eq_true (by with_unfolding_all rfl))⟩

/-- Witness for C2 amended at bpm 0 and tag "xyz" from the default state. -/
theorem c2_amended_witness :
    setBpm defaultState 0 =
      (some .zeroDivisionError,
        ⟨⟨0, 18375, 18375 / 44100, ['t']⟩, initialCaches⟩) ∧
    setWave defaultState ['x', 'y', 'z'] =
      (none, ⟨⟨144, 18375, 18375 / 44100, ['x', 'y', 'z']⟩, resetCaches⟩) :=
  ⟨(c2_amended defaultState 0 ['x', 'y', 'z']).1 rfl,
    (c2_amended defaultState 0 ['x', 'y', 'z']).2.2⟩

/-! ### Helper lemmas about apply_linearity and the envelope -/

theorem length_apply_linearity (arr : Wave) (a b : ℚ) :
    (apply_linearity arr a b).length = arr.length := by
  rw [apply_linearity, List.length_zipWith, length_linspace, min_self]

theorem apply_linearity_getElem? (arr : Wave) (a b : ℚ) {i : ℕ}
    (h : i < arr.length) :
    (apply_linearity arr a b)[i]? = some (arr.getD i 0 * linAt a b arr.length i)
    := by
  rw [apply_linearity, List.getElem?_zipWith, linspace_getElem? a b h,
    List.getElem?_eq_getElem h, List.getD_eq_getElem arr 0 h]

theorem linAt_apply_zero (a b : ℚ) (n : ℕ) : linAt a b n 0 = a := by
  rw [linAt]
  split
  · rfl
  · push_cast
    ring

theorem linAt_apply_last (a b : ℚ) {n : ℕ} (h : 2 ≤ n) :
    linAt a b n (n - 1) = b := by
  rw [linAt, if_neg (by omega)]
  have hc : ((n - 1 : ℕ) : ℚ) = (n : ℚ) - 1 := by
    rw [Nat.cast_sub (by omega), Nat.cast_one]
  have hne : ((n : ℚ) - 1) ≠ 0 := by
    have : (2 : ℚ) ≤ (n : ℚ) := by exact_mod_cast h
    intro hcon
    nlinarith
  rw [hc, mul_div_assoc, div_self hne, mul_one]
  ring

theorem length_adsr (w : Wave) : (applyAdsr w).length = w.length := by
  rw [applyAdsr]
  simp only [List.length_append, length_apply_linearity, List.length_take,
    List.length_drop]
  omega

theorem getD_take (l : Wave) {p i : ℕ} (h : i < p) :
    (l.take p).getD i 0 = l.getD i 0 := by
  rw [List.getD_eq_getElem?_getD, List.getElem?_take, if_pos h,
    ← List.getD_eq_getElem?_getD]

theorem getD_drop (l : Wave) (p i : ℕ) :
    (l.drop p).getD i 0 = l.getD (p + i) 0 := by
  rw [List.getD_eq_getElem?_getD, List.getElem?_drop,
    ← List.getD_eq_getElem?_getD]

theorem adsr_getElem? (w : Wave) {i : ℕ} (h : i < w.length) :
    (applyAdsr w)[i]? = some (w.getD i 0 * adsrMultAt w.length i) := by
  have hp1n : w.length / 20 ≤ w.length := by omega
  have hp2n : 3 * w.length / 10 ≤ w.length := by omega
  have hp3n : 9 * w.length / 10 ≤ w.length := by omega
  have hA : (apply_linearity (w.take (w.length / 20)) 0 1).length =
      w.length / 20 := by
    rw [length_apply_linearity, List.length_take]
    omega
  have hD : (apply_linearity ((w.drop (w.length / 20)).take
      (3 * w.length / 10 - w.length / 20)) 1 1).length =
      3 * w.length / 10 - w.length / 20 := by
    rw [length_apply_linearity, List.length_take, List.length_drop]
    omega
  have hS : (apply_linearity ((w.drop (3 * w.length / 10)).take
      (9 * w.length / 10 - 3 * w.length / 10)) 1 (7 / 10)).length =
      9 * w.length / 10 - 3 * w.length / 10 := by
    rw [length_apply_linearity, List.length_take, List.length_drop]
    omega
  rw [applyAdsr, adsrMultAt]
  rcases Nat.lt_or_ge i (w.length / 20) with h1 | h1
  · rw [List.getElem?_append, hA, if_pos h1, if_pos h1,
      apply_linearity_getElem? _ _ _ (by rw [List.length_take]; omega)]
    rw [List.length_take, min_eq_left hp1n, getD_take w h1]
  rcases Nat.lt_or_ge i (3 * w.length / 10) with h2 | h2
  · rw [List.getElem?_append, hA, if_neg (by omega), List.getElem?_append, hD,
      if_pos (by omega), if_neg (by omega), if_pos h2,
      apply_linearity_getElem? _ _ _
        (by rw [List.length_take, List.length_drop]; omega)]
    rw [List.length_take, List.length_drop, min_eq_left (by omega),
      getD_take _ (by omega : i - w.length / 20 <
        3 * w.length / 10 - w.length / 20), getD_drop]
    have hix : w.length / 20 + (i - w.length / 20) = i := by omega
    rw [hix]
  rcases Nat.lt_or_ge i (9 * w.length / 10) with h3 | h3
  · rw [List.getElem?_append, hA, if_neg (by omega), List.getElem?_append, hD,
      if_neg (by omega), List.getElem?_append, hS, if_pos (by omega),
      if_neg (by omega), if_neg (by omega), if_pos h3]
    have hidx : i - w.length / 20 - (3 * w.length / 10 - w.length / 20) =
        i - 3 * w.length / 10 := by omega
    rw [hidx, apply_linearity_getElem? _ _ _
      (by rw [List.length_take, List.length_drop]; omega)]
    rw [List.length_take, List.length_drop, min_eq_left (by omega),
      getD_take _ (by omega : i - 3 * w.length / 10 <
        9 * w.length / 10 - 3 * w.length / 10), getD_drop]
    have hix : 3 * w.length / 10 + (i - 3 * w.length / 10) = i := by omega
    rw [hix]
  · rw [List.getElem?_append, hA, if_neg (by omega), List.getElem?_append, hD,
      if_neg (by omega), List.getElem?_append, hS, if_neg (by omega),
      if_neg (by omega), if_neg (by omega), if_neg (by omega)]
    have hidx : i - w.length / 20 - (3 * w.length / 10 - w.length / 20) -
        (9 * w.length / 10 - 3 * w.length / 10) = i - 9 * w.length / 10 := by
      omega
    rw [hidx, apply_linearity_getElem? _ _ _ (by rw [List.length_drop]; omega)]
    rw [List.length_drop, getD_drop]
    have hix : 9 * w.length / 10 + (i - 9 * w.length / 10) = i := by omega
    rw [hix]

theorem adsrMultAt_zero {n : ℕ} (h : 20 ≤ n) : adsrMultAt n 0 = 0 := by
  rw [adsrMultAt, if_pos (by omega : 0 < n / 20), linAt_apply_zero]

theorem adsrMultAt_last {n : ℕ} (h : 20 ≤ n) : adsrMultAt n (n - 1) = 0 := by
  rw [adsrMultAt, if_neg (by omega), if_neg (by omega), if_neg (by omega)]
  have hidx : n - 1 - 9 * n / 10 = n - 9 * n / 10 - 1 := by omega
  rw [hidx, linAt_apply_last _ _ (by omega : 2 ≤ n - 9 * n / 10)]

/-! ### C5 -/

/-- C5 counterexample: on a waveform of 19 ones, the envelope of the
source (split indices by int-truncation: 0, 5, 17) differs from the
envelope the claim states (split indices by rounding: 1, 6, 17) — already
at sample 0, which the code leaves at gain 1 while the rounded split
ramps it to 0. -/
theorem c5_counterexample :
    applyAdsr (List.replicate 19 1) ≠ adsrSpec (List.replicate 19 1) :=
  of_decide_eq_true (by with_unfolding_all rfl)

/-- C5 amended: envelope shaping partitions the waveform at the truncated
indices int(0.05 n), int(0.3 n), int(0.9 n) (not rounded ones), ramps the
four segments linearly between levels 0, 1.0, 1.0, 0.7, 0, and preserves
total length exactly: sample i of the result is sample i of the input
times the piecewise-linear multiplier adsrMultAt. -/
theorem c5_amended (w : Wave) (i : ℕ) (h : i < w.length) :
    (applyAdsr w).length = w.length ∧
    (applyAdsr w)[i]? = some (w.getD i 0 * adsrMultAt w.length i) :=
  ⟨length_adsr w, adsr_getElem? w h⟩

/-- Witness for C5 amended at the waveform [1, 2, 3], index 0. -/
theorem c5_amended_witness :
    0 < ([1, 2, 3] : Wave).length ∧
    ((applyAdsr [1, 2, 3]).length = ([1, 2, 3] : Wave).length ∧
      (applyAdsr [1, 2, 3])[0]? =
        some (([1, 2, 3] : Wave).getD 0 0 *
          adsrMultAt ([1, 2, 3] : Wave).length 0)) :=
  ⟨by decide, c5_amended [1, 2, 3] 0 (by decide)⟩

/-! ### Chord synthesis inversion -/

theorem chordSynth_inv {P : FloatPrims} {cfg : Config} {s : Caches}
    {text label : Str} {times : ℕ} {w : Wave} {s1 : Caches} {k : ℕ}
    (h : chordSynth P cfg s text label times = .ok (w, s1, k)) :
    ∃ wsum, w = normalize_wave (applyAdsr wsum) ∧
      lookupA text s1.chord = some w := by
  rw [chordSynth] at h
  split at h
  · cases h
  · split at h
    · cases h
    · rename_i wsum hs
      simp only [ADSR_ENABLED, if_true] at h
      simp only [Except.ok.injEq, Prod.mk.injEq] at h
      obtain ⟨hw, hs1, hk⟩ := h
      refine ⟨wsum, hw.symm, ?_⟩
      rw [← hs1]
      show (if text = text then some (normalize_wave (applyAdsr wsum)) else _)
        = some w
      rw [if_pos rfl, hw]

/-! ### C10 -/

/-- C10: whenever a chord is synthesized on a cache miss with the envelope
enabled and the resulting waveform is long enough that the attack segment
is nonempty (int(0.05 n) at least 1) and the release segment nonempty
(int(0.9 n) < n), the first and last samples of the cached chord waveform
are exactly 0: the attack ramp starts at multiplier 0, the release ramp
ends at multiplier 0, and normalization maps 0 to 0. -/
theorem c10_edges (P : FloatPrims) (cfg : Config) (s : Caches) (text : Str)
    (w : Wave) (s1 : Caches) (k : ℕ)
    (hmiss : lookupA text s.chord = none)
    (hok : chordInit P cfg s text = .ok (w, s1, k))
    (h20 : 1 ≤ w.length / 20) (h90 : 9 * w.length / 10 < w.length) :
    w.head? = some 0 ∧ w.getLast? = some 0 := by
  rw [chordInit, hmiss] at hok
  obtain ⟨wsum, hw, -⟩ := chordSynth_inv hok
  have hlen : w.length = wsum.length := by
    rw [hw, length_normalize, length_adsr]
  have h20' : 20 ≤ w.length := by omega
  constructor
  · rw [List.head?_eq_getElem?, hw]
    apply normalize_getElem?_zero
    rw [adsr_getElem? wsum (by omega : 0 < wsum.length),
      adsrMultAt_zero (by omega : 20 ≤ wsum.length), mul_zero]
  · rw [hw, List.getLast?_eq_getElem?, length_normalize, length_adsr]
    apply normalize_getElem?_zero
    rw [adsr_getElem? wsum (by omega : wsum.length - 1 < wsum.length),
      adsrMultAt_last (by omega : 20 ≤ wsum.length), mul_zero]

/-- Witness for C10 at the reachable note_length-20 Config and the chord
text "0" on the fresh caches: the cached waveform is 20 zeros, whose first
and last samples are 0. -/
theorem c10_edges_witness :
    (lookupA (['0'] : Str) initialCaches.chord = none ∧
      chordInit trivP cfgLen20 initialCaches ['0'] =
        .ok (List.replicate 20 (0 : ℚ),
          ⟨[(1, linspace 0 (1 / 2205) 20)], [(([] : Str), ([] : Wave))],
            [((['0'] : Str), List.replicate 20 (0 : ℚ)),
              (([] : Str), ([] : Wave))]⟩, 0) ∧
      1 ≤ (List.replicate 20 (0 : ℚ)).length / 20 ∧
      9 * (List.replicate 20 (0 : ℚ)).length / 10 <
        (List.replicate 20 (0 : ℚ)).length) ∧
    ((List.replicate 20 (0 : ℚ)).head? = some 0 ∧
      (List.replicate 20 (0 : ℚ)).getLast? = some 0) :=
  ⟨⟨rfl, by with_unfolding_all rfl, by decide, by decide⟩,
    c10_edges trivP cfgLen20 initialCaches ['0'] (List.replicate 20 (0 : ℚ))
      ⟨[(1, linspace 0 (1 / 2205) 20)], [(([] : Str), ([] : Wave))],
        [((['0'] : Str), List.replicate 20 (0 : ℚ)),
          (([] : Str), ([] : Wave))]⟩ 0
      rfl (by with_unfolding_all rfl) (by decide) (by decide)⟩

/-! ### C8 -/

/-- C8: constructing a Chord twice from the same text with the Config
unchanged returns bit-identical waveforms: after any first successful
construction the waveform sits in the chord cache under the original full
text, and the second construction returns exactly that cached waveform and
the unchanged caches while performing no wave-function call (count 0). -/
theorem c8_chord_cache (P : FloatPrims) (cfg : Config) (s : Caches)
    (text : Str) (w : Wave) (s1 : Caches) (k : ℕ)
    (hok : chordInit P cfg s text = .ok (w, s1, k)) :
    lookupA text s1.chord = some w ∧
    chordInit P cfg s1 text = .ok (w, s1, 0) := by
  have hcached : lookupA text s1.chord = some w := by
    rw [chordInit] at hok
    cases hl : lookupA text s.chord with
    | some v =>
      rw [hl] at hok
      simp only [Except.ok.injEq, Prod.mk.injEq] at hok
      obtain ⟨hv, hs, hk⟩ := hok
      rw [← hs, hl, hv]
    | none =>
      rw [hl] at hok
      obtain ⟨wsum, hw, hlook⟩ := chordSynth_inv hok
      exact hlook
  refine ⟨hcached, ?_⟩
  rw [chordInit, hcached]

/-- Witness for C8 at the chord text "0" on the fresh caches under the
reachable note_length-1 Config. -/
theorem c8_chord_cache_witness :
    chordInit trivP cfgTiny initialCaches ['0'] =
      .ok (([0] : Wave),
        ⟨[(1, ([0] : Wave))], [(([] : Str), ([] : Wave))],
          [((['0'] : Str), ([0] : Wave)), (([] : Str), ([] : Wave))]⟩, 0) ∧
    (lookupA (['0'] : Str)
        (⟨[(1, ([0] : Wave))], [(([] : Str), ([] : Wave))],
          [((['0'] : Str), ([0] : Wave)), (([] : Str), ([] : Wave))]⟩
          : Caches).chord = some ([0] : Wave) ∧
      chordInit trivP cfgTiny
        ⟨[(1, ([0] : Wave))], [(([] : Str), ([] : Wave))],
          [((['0'] : Str), ([0] : Wave)), (([] : Str), ([] : Wave))]⟩ ['0'] =
        .ok (([0] : Wave),
          ⟨[(1, ([0] : Wave))], [(([] : Str), ([] : Wave))],
            [((['0'] : Str), ([0] : Wave)), (([] : Str), ([] : Wave))]⟩, 0)) :=
  ⟨by with_unfolding_all rfl,
    c8_chord_cache trivP cfgTiny initialCaches ['0'] [0]
      ⟨[(1, ([0] : Wave))], [(([] : Str), ([] : Wave))],
        [((['0'] : Str), ([0] : Wave)), (([] : Str), ([] : Wave))]⟩ 0
      (by with_unfolding_all rfl)⟩

/-! ### C9 -/

theorem splitOnChar_ne_nil (sep : Char) (l : Str) : splitOnChar sep l ≠ [] := by
  induction l with
  | nil => simp [splitOnChar]
  | cons c rest ih =>
    rw [splitOnChar]
    split <;> simp

theorem splitOnChar_headD (sep : Char) (l : Str) :
    (splitOnChar sep l).headD [] = l.takeWhile (fun c => !(c == sep)) := by
  induction l with
  | nil => rfl
  | cons c rest ih =>
    rw [splitOnChar, List.takeWhile_cons]
    by_cases hc : c = sep
    · have hb : (!(c == sep)) = false := by simp [hc]
      rw [if_pos hc, hb]
      rfl
    · have hb : (!(c == sep)) = true := by simp [hc]
      rw [if_neg hc, hb]
      simp only [List.headD_cons]
      rw [ih]
      simp

theorem splitOnChar_length (sep : Char) (l : Str) :
    (splitOnChar sep l).length = l.count sep + 1 := by
  induction l with
  | nil => rfl
  | cons c rest ih =>
    rw [splitOnChar]
    by_cases hc : c = sep
    · rw [if_pos hc]
      simp only [List.length_cons, ih, List.count_cons]
      simp [hc]
    · rw [if_neg hc]
      have hne := splitOnChar_ne_nil sep rest
      have hb : (c == sep) = false := by simp [hc]
      simp only [List.length_cons, List.length_tail, List.count_cons, hb,
        Bool.false_eq_true, if_false]
      have hpos : 1 ≤ (splitOnChar sep rest).length := by
        cases hL : splitOnChar sep rest with
        | nil => exact absurd hL hne
        | cons x xs => simp
      omega

/-- C9: in Chord.__init__, only the prefix of the chord text before the
first dash is parsed for pitch names — everything after a dash is silently
discarded — and the repeat count is 1 plus the total number of dashes
anywhere in the text: on a cache miss, construction equals synthesis from
the dash-free prefix with that repeat count. -/
theorem c9_parse (P : FloatPrims) (cfg : Config) (s : Caches) (text : Str)
    (hmiss : lookupA text s.chord = none) :
    chordInit P cfg s text =
      chordSynth P cfg s text (text.takeWhile (fun c => !(c == '-')))
        (1 + text.count '-') := by
  rw [chordInit, hmiss, splitOnChar_headD]
  have h1 := splitOnChar_length '-' text
  have h2 : (splitOnChar '-' text).tail.length =
      (splitOnChar '-' text).length - 1 := List.length_tail _
  have hlen : (splitOnChar '-' text).tail.length + 1 = 1 + text.count '-' := by
    omega
  rw [hlen]

/-- Witness for C9 at the chord text "a4-b4": construction parses only the
pitch prefix "a4" and repeat count 2; the text "b4" after the dash is
ignored. -/
theorem c9_parse_witness :
    lookupA (['a', '4', '-', 'b', '4'] : Str) initialCaches.chord = none ∧
    chordInit trivP cfgTiny initialCaches ['a', '4', '-', 'b', '4'] =
      chordSynth trivP cfgTiny initialCaches ['a', '4', '-', 'b', '4']
        ['a', '4'] 2 :=
  ⟨rfl, c9_parse trivP cfgTiny initialCaches ['a', '4', '-', 'b', '4'] rfl⟩

/-! ### C7 -/

theorem npAdd_error (w1 w2 : Wave) (hne : w1.length ≠ w2.length)
    (h1 : w1.length ≠ 1) (h2 : w2.length ≠ 1) :
    npAdd w1 w2 = .error .valueError := by
  rw [npAdd, if_neg hne, if_neg h1, if_neg h2]

/-- C7 counterexample: under the reachable note_length-1 Config, the
tracks built from "0" (one sample) and "0-" (two samples) have different
sample counts, yet mixing them does not fail: numpy broadcasting stretches
the single sample and the mix returns a two-sample result. -/
theorem c7_counterexample :
    trackInit trivP cfgTiny initialCaches ['0'] =
      .ok (([0] : Wave),
        ⟨[(1, ([0] : Wave))], [(([] : Str), ([] : Wave))],
          [((['0'] : Str), ([0] : Wave)), (([] : Str), ([] : Wave))]⟩) ∧
    trackInit trivP cfgTiny
      ⟨[(1, ([0] : Wave))], [(([] : Str), ([] : Wave))],
        [((['0'] : Str), ([0] : Wave)), (([] : Str), ([] : Wave))]⟩
      ['0', '-'] =
      .ok (([0, 0] : Wave),
        ⟨[(2, ([0, 1 / 22050] : Wave)), (1, ([0] : Wave))],
          [(([] : Str), ([] : Wave))],
          [((['0', '-'] : Str), ([0, 0] : Wave)),
            ((['0'] : Str), ([0] : Wave)), (([] : Str), ([] : Wave))]⟩) ∧
    ([0] : Wave).length ≠ ([0, 0] : Wave).length ∧
    trackMul trivP cfgTiny
      ⟨[(2, ([0, 1 / 22050] : Wave)), (1, ([0] : Wave))],
        [(([] : Str), ([] : Wave))],
        [((['0', '-'] : Str), ([0, 0] : Wave)),
          ((['0'] : Str), ([0] : Wave)), (([] : Str), ([] : Wave))]⟩
      [0] [0, 0] =
      .ok (([0, 0] : Wave),
        ⟨[(2, ([0, 1 / 22050] : Wave)), (1, ([0] : Wave))],
          [(([] : Str), ([] : Wave))],
          [((['0', '-'] : Str), ([0, 0] : Wave)),
            ((['0'] : Str), ([0] : Wave)), (([] : Str), ([] : Wave))]⟩) :=
  ⟨by with_unfolding_all rfl, by with_unfolding_all rfl, by decide,
    by with_unfolding_all rfl⟩

/-- C7 amended: mixing two tracks whose waveforms have different sample
counts fails with the broadcast length error whenever neither waveform has
exactly one sample; a single-sample operand is instead broadcast across
the other by numpy, silently yielding a padded result. -/
theorem c7_amended (P : FloatPrims) (cfg : Config) (s : Caches)
    (w1 w2 : Wave) (hne : w1.length ≠ w2.length) (h1 : w1.length ≠ 1)
    (h2 : w2.length ≠ 1) (r : Wave × Caches) :
    trackMul P cfg s w1 w2 ≠ .ok r := by
  intro hcon
  rw [trackMul] at hcon
  split at hcon
  · cases hcon
  · rw [npAdd_error w1 w2 hne h1 h2] at hcon
    cases hcon

/-- Witness for C7 amended at waveforms of lengths 2 and 3. -/
theorem c7_amended_witness :
    (([1, 2] : Wave).length ≠ ([1, 2, 3] : Wave).length ∧
      ([1, 2] : Wave).length ≠ 1 ∧ ([1, 2, 3] : Wave).length ≠ 1) ∧
    trackMul trivP cfgTiny initialCaches [1, 2] [1, 2, 3] ≠
      .ok (([0] : Wave), initialCaches) :=
  ⟨⟨by decide, by decide, by decide⟩,
    c7_amended trivP cfgTiny initialCaches [1, 2] [1, 2, 3] (by decide)
      (by decide) (by decide) (([0] : Wave), initialCaches)⟩

/-! ### C3 -/

theorem smoothStep_length (wing : ℕ) (buf : Wave) (i : ℕ) :
    (smoothStep wing buf i).length = buf.length := by
  rw [smoothStep, List.length_set]

theorem length_smoothLoop (wing : ℕ) (l : List ℕ) (buf : Wave) :
    (smoothLoop wing buf l).length = buf.length := by
  induction l generalizing buf with
  | nil => rfl
  | cons i rest ih =>
    rw [smoothLoop, ih, smoothStep_length]

theorem smoothLoop_untouched (wing : ℕ) (l : List ℕ) (buf : Wave) (p : ℕ)
    (hp : ∀ i ∈ l, p ≠ i) : (smoothLoop wing buf l)[p]? = buf[p]? := by
  induction l generalizing buf with
  | nil => rfl
  | cons i rest ih =>
    rw [smoothLoop, ih _ fun j hj => hp j (List.mem_cons_of_mem _ hj),
      smoothStep, List.getElem?_set_ne (Ne.symm (hp i (List.mem_cons_self _ _)))]

theorem take_drop_eq_range'_map (l : Wave) (a n : ℕ) (h : a + n ≤ l.length) :
    (l.drop a).take n = (List.range' a n).map fun p => l.getD p 0 := by
  induction n generalizing a with
  | zero => rfl
  | succ n ih =>
    have ha : a < l.length := by omega
    have hd : l.drop a = l.getD a 0 :: l.drop (a + 1) := by
      rw [List.drop_eq_getElem_cons ha, List.getD_eq_getElem l 0 ha]
    rw [hd, List.take_succ_cons, List.range'_succ, List.map_cons]
    have hdrop : (l.drop (a + 1)).take n =
        (List.range' (a + 1) n).map fun p => l.getD p 0 := ih (a + 1) (by omega)
    rw [hdrop]

theorem smoothLoop_formula (wing : ℕ) :
    ∀ (m j : ℕ) (buf : Wave), wing ≤ j → j + m + wing ≤ buf.length →
    ∀ i, j ≤ i → i < j + m →
    (smoothLoop wing buf (List.range' j m))[i]? =
      some ((((List.range' (i - wing) (2 * wing)).map fun p =>
        if p < i then (smoothLoop wing buf (List.range' j m)).getD p 0
        else buf.getD p 0).sum) / (2 * wing)) := by
  intro m
  induction m with
  | zero =>
    intro j buf _ _ i hji hij
    omega
  | succ m ih =>
    intro j buf hwj hbound i hji hij
    rw [List.range'_succ, smoothLoop]
    rcases Nat.eq_or_lt_of_le hji with heq | hlt
    · subst heq
      have huntouched :
          (smoothLoop wing (smoothStep wing buf j) (List.range' (j + 1) m))[j]?
            = (smoothStep wing buf j)[j]? := by
        apply smoothLoop_untouched
        intro x hx
        have := List.mem_range'_1.mp hx
        omega
      rw [huntouched]
      have hstep : (smoothStep wing buf j)[j]? =
          some ((((buf.drop (j - wing)).take (2 * wing)).sum) / (2 * wing)) := by
        rw [smoothStep, List.getElem?_set_self (by omega : j < buf.length)]
      rw [hstep]
      congr 2
      rw [take_drop_eq_range'_map buf (j - wing) (2 * wing) (by omega)]
      refine (congrArg List.sum (List.map_congr_left fun p hp => ?_)).symm
      have hpr := List.mem_range'_1.mp hp
      by_cases hpj : p < j
      · rw [if_pos hpj]
        have h1 : (smoothLoop wing (smoothStep wing buf j)
            (List.range' (j + 1) m))[p]? = buf[p]? := by
          rw [smoothLoop_untouched wing _ _ p
            (by intro x hx; have := List.mem_range'_1.mp hx; omega),
            smoothStep, List.getElem?_set_ne (by omega : j ≠ p)]
        rw [List.getD_eq_getElem?_getD, h1, ← List.getD_eq_getElem?_getD]
      · rw [if_neg hpj]
    · have hnext := ih (j + 1) (smoothStep wing buf j) (by omega)
        (by rw [smoothStep_length]; omega) i (by omega) (by omega)
      rw [hnext]
      congr 2
      refine congrArg List.sum (List.map_congr_left fun p hp => ?_)
      by_cases hpi : p < i
      · rw [if_pos hpi, if_pos hpi]
      · rw [if_neg hpi, if_neg hpi, smoothStep]
        rw [List.getD_eq_getElem?_getD,
          List.getElem?_set_ne (by omega : j ≠ p),
          ← List.getD_eq_getElem?_getD]

/-- C3 counterexample: on the waveform [0, 1, 0, 1, 0] with one pass and
wing 1, the source's smoothing (which writes into the same shared numpy
view it reads from, so earlier writes of the pass feed later means)
produces a different result from the fresh-buffer smoothing the claim
states. -/
theorem c3_counterexample :
    smooth [0, 1, 0, 1, 0] 1 1 ≠ smoothFresh [0, 1, 0, 1, 0] 1 1 :=
  of_decide_eq_true (by with_unfolding_all rfl)

/-- C3 amended: tmp_wave = self.wave[:] is a numpy view of the same
buffer, so each pass updates samples in place, left to right: boundary
samples (within wing of either edge) are unchanged, and each interior
sample i is replaced by the mean over the window [i-wing, i+wing) of a
mixed buffer — positions below i already hold their new values of this
pass, positions from i upward still hold the pass's input values — and
after all passes the result is normalized. -/
theorem c3_amended (w : Wave) (times wing p i : ℕ) (hwing : 1 ≤ wing)
    (hp : p < wing ∨ w.length - wing ≤ p) (hiw : wing ≤ i)
    (hib : i + wing < w.length) :
    smooth w times wing = normalize_wave ((smoothPass wing)^[times] w) ∧
    (smoothPass wing w).length = w.length ∧
    (smoothPass wing w)[p]? = w[p]? ∧
    (smoothPass wing w)[i]? =
      some ((((List.range' (i - wing) (2 * wing)).map fun q =>
        if q < i then (smoothPass wing w).getD q 0 else w.getD q 0).sum) /
        (2 * wing)) := by
  refine ⟨rfl, ?_, ?_, ?_⟩
  · rw [smoothPass, length_smoothLoop]
  · rw [smoothPass]
    apply smoothLoop_untouched
    intro x hx
    have := List.mem_range'_1.mp hx
    omega
  · rw [smoothPass]
    exact smoothLoop_formula wing (w.length - 2 * wing) wing w (le_refl _)
      (by omega) i hiw (by omega)

/-- Witness for C3 amended at the waveform [0, 1, 0, 1, 0], one pass,
wing 1, boundary index 0 and interior index 2. -/
theorem c3_amended_witness :
    (1 ≤ 1 ∧ (0 < 1 ∨ ([0, 1, 0, 1, 0] : Wave).length - 1 ≤ 0) ∧ 1 ≤ 2 ∧
      2 + 1 < ([0, 1, 0, 1, 0] : Wave).length) ∧
    (smooth [0, 1, 0, 1, 0] 1 1 =
        normalize_wave ((smoothPass 1)^[1] [0, 1, 0, 1, 0]) ∧
      (smoothPass 1 [0, 1, 0, 1, 0]).length =
        ([0, 1, 0, 1, 0] : Wave).length ∧
      (smoothPass 1 [0, 1, 0, 1, 0])[0]? = ([0, 1, 0, 1, 0] : Wave)[0]? ∧
      (smoothPass 1 [0, 1, 0, 1, 0])[2]? =
        some ((((List.range' (2 - 1) (2 * 1)).map fun q =>
          if q < 2 then (smoothPass 1 [0, 1, 0, 1, 0]).getD q 0
          else ([0, 1, 0, 1, 0] : Wave).getD q 0).sum) / (2 * 1))) :=
  ⟨⟨le_refl 1, Or.inl (by decide), by decide, by decide⟩,
    c3_amended [0, 1, 0, 1, 0] 1 1 0 2 (le_refl 1) (Or.inl (by decide))
      (by decide) (by decide)⟩

end Rio
